import Mathlib

set_option maxHeartbeats 1000000

/-!
Shallow embedding of the SSE stream decoder of `src/frontend/src/api.js`
(function `streamLLM`).  The repository file contains two variants of the
decoder; both are modelled here, character-for-character faithful to the
JavaScript source:

* variant 1 (first copy of the file, lines 40-111): strict `JSON.parse`,
  top-level `content` only, follow-up filtering, trim check, no event state;
* variant 2 (second copy, lines 151-224): per-chunk `currentEvent` state,
  brace-slice parsing, three extraction rules, raw-payload fallback.

Strings are modelled as `List Char`; `JSON.parse` is modelled by an
executable recursive-descent parser over the JSON grammar whose numbers
keep their source spelling.
-/

abbrev Str := List Char

/-- JSON values as produced by `JSON.parse`.  Number tokens keep their
source spelling; object fields keep their source order (duplicate keys
allowed, the last one wins on access, as in JavaScript). -/
inductive Json where
  | null : Json
  | bool : Bool → Json
  | num : Str → Json
  | str : Str → Json
  | arr : List Json → Json
  | obj : List (Str × Json) → Json

/-- JSON insignificant whitespace (RFC 8259): space, tab, LF, CR. -/
def jsonWsChar (c : Char) : Bool :=
  c == ' ' || c == '\t' || c == '\n' || c == '\r'

def skipWs : Str → Str
  | [] => []
  | c :: cs => if jsonWsChar c then skipWs cs else c :: cs

def hexVal (c : Char) : Option Nat :=
  if '0' ≤ c ∧ c ≤ '9' then some (c.toNat - '0'.toNat)
  else if 'a' ≤ c ∧ c ≤ 'f' then some (c.toNat - 'a'.toNat + 10)
  else if 'A' ≤ c ∧ c ≤ 'F' then some (c.toNat - 'A'.toNat + 10)
  else none

/-- Single-character JSON string escapes. -/
def escChar : Char → Option Char
  | '"' => some '"'
  | '\\' => some '\\'
  | '/' => some '/'
  | 'b' => some (Char.ofNat 8)
  | 'f' => some (Char.ofNat 12)
  | 'n' => some '\n'
  | 'r' => some '\r'
  | 't' => some '\t'
  | _ => none

/-- Body of a JSON string after the opening quote: returns the decoded
content and the input remaining after the closing quote. -/
def parseStrB : Nat → Str → Option (Str × Str)
  | 0, _ => none
  | _, [] => none
  | fuel + 1, c :: cs =>
    if c = '"' then some ([], cs)
    else if c = '\\' then
      match cs with
      | [] => none
      | 'u' :: a :: b :: d :: e :: rest =>
        match hexVal a, hexVal b, hexVal d, hexVal e with
        | some ha, some hb, some hd, some he =>
          match parseStrB fuel rest with
          | some (body, rem) =>
            some (Char.ofNat (((ha * 16 + hb) * 16 + hd) * 16 + he) :: body, rem)
          | none => none
        | _, _, _, _ => none
      | e :: rest =>
        match escChar e with
        | some ec =>
          match parseStrB fuel rest with
          | some (body, rem) => some (ec :: body, rem)
          | none => none
        | none => none
    else if c.toNat < 32 then none
    else
      match parseStrB fuel cs with
      | some (body, rem) => some (c :: body, rem)
      | none => none

def spanDigits : Str → Str × Str
  | [] => ([], [])
  | c :: cs =>
    if c.isDigit then
      let p := spanDigits cs
      (c :: p.1, p.2)
    else ([], c :: cs)

/-- Optional fraction part of a JSON number. -/
def parseFrac (s : Str) : Option (Str × Str) :=
  match s with
  | '.' :: r =>
    let p := spanDigits r
    if p.1.isEmpty then none else some ('.' :: p.1, p.2)
  | _ => some ([], s)

/-- Optional exponent part of a JSON number. -/
def parseExp (s : Str) : Option (Str × Str) :=
  match s with
  | [] => some ([], [])
  | c :: r =>
    if c = 'e' ∨ c = 'E' then
      let sg : Str × Str :=
        match r with
        | '+' :: r2 => (['+'], r2)
        | '-' :: r2 => (['-'], r2)
        | _ => ([], r)
      let p := spanDigits sg.2
      if p.1.isEmpty then none else some (c :: (sg.1 ++ p.1), p.2)
    else some ([], c :: r)

/-- A JSON number token (sign, integer part without leading zeros,
optional fraction, optional exponent), kept as its source spelling. -/
def parseNumTok (s : Str) : Option (Str × Str) :=
  let sgn : Str × Str :=
    match s with
    | '-' :: r => (['-'], r)
    | _ => ([], s)
  let intPart : Option (Str × Str) :=
    match sgn.2 with
    | '0' :: r => some (['0'], r)
    | c :: r =>
      if c.isDigit then
        let p := spanDigits r
        some (c :: p.1, p.2)
      else none
    | [] => none
  match intPart with
  | none => none
  | some (ip, s2) =>
    match parseFrac s2 with
    | none => none
    | some (fp, s3) =>
      match parseExp s3 with
      | none => none
      | some (ep, s4) => some (sgn.1 ++ ip ++ fp ++ ep, s4)

mutual

/-- One JSON value, input already stripped of leading whitespace. -/
def parseVal : Nat → Str → Option (Json × Str)
  | 0, _ => none
  | fuel + 1, s =>
    match s with
    | [] => none
    | '\x7b' :: r =>
      let r1 := skipWs r
      match r1 with
      | '\x7d' :: r2 => some (Json.obj [], r2)
      | _ =>
        match parseMembers fuel r1 with
        | some (fs, rest) => some (Json.obj fs, rest)
        | none => none
    | '[' :: r =>
      let r1 := skipWs r
      match r1 with
      | ']' :: r2 => some (Json.arr [], r2)
      | _ =>
        match parseItems fuel r1 with
        | some (vs, rest) => some (Json.arr vs, rest)
        | none => none
    | '"' :: r =>
      match parseStrB (r.length + 1) r with
      | some (body, rest) => some (Json.str body, rest)
      | none => none
    | 't' :: 'r' :: 'u' :: 'e' :: r => some (Json.bool true, r)
    | 'f' :: 'a' :: 'l' :: 's' :: 'e' :: r => some (Json.bool false, r)
    | 'n' :: 'u' :: 'l' :: 'l' :: r => some (Json.null, r)
    | _ =>
      match parseNumTok s with
      | some (tok, rest) => some (Json.num tok, rest)
      | none => none

/-- Comma-separated array items up to the closing bracket. -/
def parseItems : Nat → Str → Option (List Json × Str)
  | 0, _ => none
  | fuel + 1, s =>
    match parseVal fuel s with
    | none => none
    | some (v, s1) =>
      match skipWs s1 with
      | ',' :: r =>
        match parseItems fuel (skipWs r) with
        | some (vs, rest) => some (v :: vs, rest)
        | none => none
      | ']' :: r => some ([v], r)
      | _ => none

/-- Comma-separated object members up to the closing brace. -/
def parseMembers : Nat → Str → Option (List (Str × Json) × Str)
  | 0, _ => none
  | fuel + 1, s =>
    match s with
    | '"' :: r =>
      match parseStrB (r.length + 1) r with
      | none => none
      | some (key, s1) =>
        match skipWs s1 with
        | ':' :: r2 =>
          match parseVal fuel (skipWs r2) with
          | none => none
          | some (v, s2) =>
            match skipWs s2 with
            | ',' :: r3 =>
              match parseMembers fuel (skipWs r3) with
              | some (fs, rest) => some ((key, v) :: fs, rest)
              | none => none
            | '\x7d' :: r3 => some ([(key, v)], r3)
            | _ => none
        | _ => none
    | _ => none

end

/-- Model of `JSON.parse`: a single JSON value, surrounded only by
whitespace. -/
def parseJson (s : Str) : Option Json :=
  match parseVal (s.length + 1) (skipWs s) with
  | some (v, rest) => if skipWs rest = [] then some v else none
  | none => none

/-- Last binding of a key in a field list (in JavaScript, the later of two
duplicate keys wins). -/
def lookupLast : List (Str × Json) → Str → Option Json
  | [], _ => none
  | (k, v) :: rest, key =>
    match lookupLast rest key with
    | some r => some r
    | none => if k = key then some v else none

/-- JavaScript property access `j.key`: `none` models `undefined`. -/
def getField : Json → Str → Option Json
  | Json.obj fs, key => lookupLast fs key
  | _, _ => none

/-- A number token denotes zero iff every mantissa digit is `0`. -/
def numTokFalsy (tok : Str) : Bool :=
  (tok.takeWhile (fun c => !(c == 'e') && !(c == 'E'))).all
    (fun c => !(c.isDigit) || c == '0')

/-- JavaScript truthiness of a `JSON.parse` result. -/
def truthy : Json → Bool
  | Json.null => false
  | Json.bool b => b
  | Json.num tok => !(numTokFalsy tok)
  | Json.str s => !(s.isEmpty)
  | Json.arr _ => true
  | Json.obj _ => true

/-- Whitespace for JavaScript `String.prototype.trim`. -/
def jsWsChar (c : Char) : Bool :=
  c == ' ' || c == '\t' || c == '\n' || c == '\r' ||
  c == Char.ofNat 11 || c == Char.ofNat 12 ||
  c == Char.ofNat 0xa0 || c == Char.ofNat 0xfeff

/-- JavaScript `s.trim()`. -/
def jsTrim (s : Str) : Str :=
  ((s.dropWhile jsWsChar).reverse.dropWhile jsWsChar).reverse

/-- JavaScript `s.startsWith(pat)` (pattern first). -/
def strStarts : Str → Str → Bool
  | [], _ => true
  | _ :: _, [] => false
  | p :: ps, c :: cs => p == c && strStarts ps cs

/-- Strict-equality test `j.key === v` for a string literal `v`. -/
def fieldIsStrVal (j : Json) (key v : Str) : Bool :=
  match getField j key with
  | some (Json.str s) => s == v
  | _ => false

/-- JavaScript `typeof x === 'object'` for a `JSON.parse` result
(objects, arrays and `null`). -/
def isObjectType : Json → Bool
  | Json.obj _ => true
  | Json.arr _ => true
  | Json.null => true
  | _ => false

/-- Variant 1, payload handling (api.js lines 78-102): strict
`JSON.parse`, object check, follow-up filter, top-level `content` string
with non-empty trim. -/
def extractV1 (payload : Str) : List Json :=
  match parseJson payload with
  | none => []
  | some j =>
    if !(truthy j && isObjectType j) then []
    else if fieldIsStrVal j "type".data "follow_up".data ||
            fieldIsStrVal j "msg_type".data "follow_up".data then []
    else
      match getField j "content".data with
      | some (Json.str s) => if (jsTrim s).isEmpty then [] else [Json.str s]
      | _ => []

/-- Variant 1, one line of the split buffer (api.js lines 65-103). -/
def lineFrags1 (line : Str) : List Json :=
  let trimmed := jsTrim line
  if !(strStarts "data:".data trimmed) then []
  else
    let payload := jsTrim (trimmed.drop 5)
    if payload.isEmpty then []
    else if payload = "[DONE]".data then []
    else if strStarts "event:".data payload then []
    else extractV1 payload

def deltaEvent : Str := "conversation.message.delta".data

/-- JavaScript `s.indexOf(c)`, as an option instead of `-1`. -/
def idxOfFirst : Str → Char → Option Nat
  | [], _ => none
  | c :: cs, t =>
    if c == t then some 0
    else
      match idxOfFirst cs t with
      | some i => some (i + 1)
      | none => none

/-- JavaScript `s.lastIndexOf(c)`, as an option instead of `-1`. -/
def idxOfLast (s : Str) (t : Char) : Option Nat :=
  match idxOfFirst s.reverse t with
  | some i => some (s.length - 1 - i)
  | none => none

/-- Element admission of the `data.contents` loop (api.js line 205):
`c && typeof c.content === 'string'`, pushing `c.content`. -/
def pickContent (el : Json) : Option Json :=
  if truthy el then
    match getField el "content".data with
    | some (Json.str s) => some (Json.str s)
    | _ => none
  else none

/-- Variant 2 rule a (api.js line 201): `if (obj.content) parts.push(obj.content)`. -/
def partsTop (j : Json) : List Json :=
  match getField j "content".data with
  | some v => if truthy v then [v] else []
  | none => []

/-- Variant 2 rule b (api.js line 202):
`if (obj.data && obj.data.content) parts.push(obj.data.content)`. -/
def partsData (j : Json) : List Json :=
  match getField j "data".data with
  | some d =>
    if truthy d then
      match getField d "content".data with
      | some v => if truthy v then [v] else []
      | none => []
    else []
  | none => []

/-- Variant 2 rule c (api.js lines 203-207): the `data.contents` loop. -/
def partsList (j : Json) : List Json :=
  match getField j "data".data with
  | some d =>
    if truthy d then
      match getField d "contents".data with
      | some (Json.arr xs) => xs.filterMap pickContent
      | _ => []
    else []
  | none => []

/-- Variant 2, the `parts` array built for a parsed payload object. -/
def extractParts (j : Json) : List Json :=
  partsTop j ++ partsData j ++ partsList j

/-- Variant 2, payload handling (api.js lines 195-215): parse the slice
between the first brace and the last brace; on success emit the collected
parts, falling back to the raw payload when no part was collected, when
the braces are missing or inverted, or when parsing throws. -/
def extract2 (payload : Str) : List Json :=
  match idxOfFirst payload '\x7b', idxOfLast payload '\x7d' with
  | some s, some e =>
    if s < e then
      match parseJson ((payload.drop s).take (e + 1 - s)) with
      | some j =>
        let parts := extractParts j
        if parts.isEmpty then [Json.str payload] else parts
      | none => [Json.str payload]
    else [Json.str payload]
  | _, _ => [Json.str payload]

/-- Variant 2, one line (api.js lines 177-216): threads the per-chunk
`currentEvent` state and yields the fragments of the line. -/
def lineStep2 (ev : Str) (line : Str) : Str × List Json :=
  let trimmed := jsTrim line
  if !(strStarts "data:".data trimmed) then (ev, [])
  else
    let payload := jsTrim (trimmed.drop 5)
    if payload.isEmpty then (ev, [])
    else if payload = "[DONE]".data then (ev, [])
    else if strStarts "event:".data payload then (jsTrim (payload.drop 6), [])
    else if !(ev.isEmpty) && !(ev == deltaEvent) then (ev, [])
    else (ev, extract2 payload)

/-- Variant 2, the lines of one chunk, event state threaded left to right. -/
def lines2 (ev : Str) : List Str → List Json
  | [] => []
  | l :: ls =>
    let st := lineStep2 ev l
    st.2 ++ lines2 st.1 ls

/-- JavaScript `buffer.split('\n')`: list of segments, always non-empty. -/
def splitNl : Str → List Str
  | [] => [[]]
  | c :: cs =>
    if c = '\n' then [] :: splitNl cs
    else
      match splitNl cs with
      | [] => [[c]]
      | h :: t => (c :: h) :: t

/-- JavaScript `lines.pop() || ''` on a split result. -/
def lastSeg (l : List Str) : Str := l.getLastD []

/-- Variant 1 read loop (api.js lines 57-104): text chunks are appended
to the buffer, complete lines are processed, the unterminated tail is
kept; at end of stream the tail is dropped. -/
def run1 (buf : Str) : List Str → List Json
  | [] => []
  | c :: cs =>
    let parts := splitNl (buf ++ c)
    parts.dropLast.flatMap lineFrags1 ++ run1 (lastSeg parts) cs

/-- Variant 2 read loop (api.js lines 168-217): same buffering, but the
`currentEvent` variable is declared inside the loop, hence reset to the
empty string at every chunk. -/
def run2 (buf : Str) : List Str → List Json
  | [] => []
  | c :: cs =>
    let parts := splitNl (buf ++ c)
    lines2 [] parts.dropLast ++ run2 (lastSeg parts) cs

/-- The byte-stream source: the chunks the reader yields, and whether the
read that follows them rejects (`failsAfter = true`) or reports a clean
end of stream. -/
structure Source where
  chunks : List Str
  failsAfter : Bool

/-- Observable outcome of one `streamLLM` call: the fragments passed to
`onChunk` in order, and the number of `onDone` and `onError` calls. -/
structure RunResult where
  frags : List Json
  doneCalls : Nat
  errCalls : Nat

/-- Variant 1 `streamLLM`: a missing response body throws before the loop
(api.js line 51); a read rejection reaches the catch block after the
fragments of the earlier chunks were delivered; a clean end of stream
runs `onDone()`. -/
def streamRun1 (body : Option Source) : RunResult :=
  match body with
  | none => ⟨[], 0, 1⟩
  | some src =>
    if src.failsAfter then ⟨run1 [] src.chunks, 0, 1⟩
    else ⟨run1 [] src.chunks, 1, 0⟩

/-- Variant 2 `streamLLM`, same control flow as variant 1. -/
def streamRun2 (body : Option Source) : RunResult :=
  match body with
  | none => ⟨[], 0, 1⟩
  | some src =>
    if src.failsAfter then ⟨run2 [] src.chunks, 0, 1⟩
    else ⟨run2 [] src.chunks, 1, 0⟩

/-- Prepend a pending tail onto the first segment of a split result. -/
def consHead (p : Str) : List Str → List Str
  | [] => [p]
  | h :: t => (p ++ h) :: t

/-- The pending-tail buffer left behind after a list of chunks. -/
def finalBuf (b : Str) : List Str → Str
  | [] => b
  | c :: cs => finalBuf (lastSeg (splitNl (b ++ c))) cs

/-- The event name a line assigns in variant 2, if any: event declarations
are recognized there only when carried inside a `data:` line, after the
emptiness and sentinel checks. -/
def eventNameOf (line : Str) : Option Str :=
  let trimmed := jsTrim line
  if !(strStarts "data:".data trimmed) then none
  else
    let payload := jsTrim (trimmed.drop 5)
    if payload.isEmpty then none
    else if payload = "[DONE]".data then none
    else if strStarts "event:".data payload then some (jsTrim (payload.drop 6))
    else none

/-- Modelled from the spec, for refinement comparison only (rules 4a, 4b,
4c and 5 of the extraction policy): the candidate fragments of a parsed
payload object are the top-level `content` string, then the `data.content`
string, then the string `content` fields of the `data.contents` elements
in sequence order; candidates that are empty after trimming are
discarded. -/
def specRuleFrags (j : Json) : List Str :=
  let a : List Str :=
    match getField j "content".data with
    | some (Json.str s) => [s]
    | _ => []
  let b : List Str :=
    match getField j "data".data with
    | some d =>
      match getField d "content".data with
      | some (Json.str s) => [s]
      | _ => []
    | none => []
  let c : List Str :=
    match getField j "data".data with
    | some d =>
      match getField d "contents".data with
      | some (Json.arr xs) =>
        xs.filterMap (fun el =>
          match getField el "content".data with
          | some (Json.str s) => some s
          | _ => none)
      | _ => []
    | none => []
  (a ++ b ++ c).filter (fun s => !(jsTrim s).isEmpty)

/-! Infrastructure lemmas about the line buffer. -/

theorem splitNl_ne_nil (s : Str) : splitNl s ≠ [] := by
  induction s with
  | nil => simp [splitNl]
  | cons c cs ih =>
    simp only [splitNl]
    split
    · simp
    · split
      · simp
      · simp

theorem consHead_ne_nil (p : Str) (l : List Str) : consHead p l ≠ [] := by
  cases l <;> simp [consHead]

theorem consHead_nil_left (l : List Str) (h : l ≠ []) : consHead [] l = l := by
  cases l with
  | nil => exact absurd rfl h
  | cons x t => simp [consHead]

theorem getLastD_irrel {α : Type} (l : List α) (h : l ≠ []) (a b : α) :
    l.getLastD a = l.getLastD b := by
  cases l with
  | nil => exact absurd rfl h
  | cons x t => rw [List.getLastD_cons, List.getLastD_cons]

theorem splitNl_append (a b : Str) :
    splitNl (a ++ b) =
      (splitNl a).dropLast ++ consHead (lastSeg (splitNl a)) (splitNl b) := by
  induction a with
  | nil =>
    simp [splitNl, lastSeg, consHead_nil_left _ (splitNl_ne_nil b)]
  | cons c cs ih =>
    by_cases hc : c = '\n'
    · subst hc
      obtain ⟨h, t, hS⟩ : ∃ h t, splitNl cs = h :: t := by
        cases hS : splitNl cs with
        | nil => exact absurd hS (splitNl_ne_nil cs)
        | cons h t => exact ⟨h, t, rfl⟩
      have lhs : splitNl ('\n' :: (cs ++ b)) = [] :: splitNl (cs ++ b) := by
        simp [splitNl]
      have rhs : splitNl ('\n' :: cs) = [] :: splitNl cs := by
        simp [splitNl]
      rw [List.cons_append, lhs, ih, rhs, hS]
      simp [lastSeg, List.getLastD_cons, consHead]
    · obtain ⟨h, t, hS⟩ : ∃ h t, splitNl cs = h :: t := by
        cases hS : splitNl cs with
        | nil => exact absurd hS (splitNl_ne_nil cs)
        | cons h t => exact ⟨h, t, rfl⟩
      have rhs : splitNl (c :: cs) = (c :: h) :: t := by
        simp only [splitNl, if_neg hc, hS]
      rw [List.cons_append]
      have lhs : splitNl (c :: (cs ++ b)) =
          consHead [c] (splitNl (cs ++ b)) := by
        simp only [splitNl, if_neg hc]
        cases hX : splitNl (cs ++ b) with
        | nil => exact absurd hX (splitNl_ne_nil _)
        | cons x xs => simp [consHead]
      rw [lhs, ih, hS, rhs]
      cases t with
      | nil =>
        simp [lastSeg, List.getLastD_cons, consHead]
        cases hB : splitNl b with
        | nil => exact absurd hB (splitNl_ne_nil b)
        | cons hb tb => simp [consHead]
      | cons h2 t2 =>
        have hd : ((c :: h) :: h2 :: t2).dropLast = (c :: h) :: (h2 :: t2).dropLast := by
          simp
        simp only [lastSeg, List.getLastD_cons, hd]
        have hne : (h :: h2 :: t2).dropLast ≠ [] := by simp
        cases hD : (h :: h2 :: t2).dropLast with
        | nil => exact absurd hD hne
        | cons d ds =>
          have : (h :: h2 :: t2).dropLast = h :: (h2 :: t2).dropLast := by simp
          rw [this] at hD
          cases hD
          simp [consHead]

theorem splitNl_of_noNl (s : Str) (h : '\n' ∉ s) : splitNl s = [s] := by
  induction s with
  | nil => rfl
  | cons c cs ih =>
    have hc : c ≠ '\n' := fun hx => h (hx ▸ List.mem_cons_self c cs)
    have hcs : '\n' ∉ cs := fun hx => h (List.mem_cons_of_mem c hx)
    simp only [splitNl, if_neg hc, ih hcs]

theorem noNl_lastSeg_splitNl (s : Str) : '\n' ∉ lastSeg (splitNl s) := by
  induction s with
  | nil => simp [splitNl, lastSeg]
  | cons c cs ih =>
    by_cases hc : c = '\n'
    · subst hc
      obtain ⟨h, t, hS⟩ : ∃ h t, splitNl cs = h :: t := by
        cases hS : splitNl cs with
        | nil => exact absurd hS (splitNl_ne_nil cs)
        | cons h t => exact ⟨h, t, rfl⟩
      simp only [splitNl, if_pos rfl, hS, lastSeg, List.getLastD_cons]
      rw [hS] at ih
      simpa [lastSeg, List.getLastD_cons] using ih
    · obtain ⟨h, t, hS⟩ : ∃ h t, splitNl cs = h :: t := by
        cases hS : splitNl cs with
        | nil => exact absurd hS (splitNl_ne_nil cs)
        | cons h t => exact ⟨h, t, rfl⟩
      simp only [splitNl, if_neg hc, hS]
      rw [hS] at ih
      cases t with
      | nil =>
        simp only [lastSeg, List.getLastD_cons] at ih ⊢
        simp only [List.getLastD]
        intro hmem
        rcases List.mem_cons.mp hmem with h1 | h1
        · exact hc h1.symm
        · exact ih (by simpa [List.getLastD] using h1)
      | cons h2 t2 =>
        simpa [lastSeg, List.getLastD_cons] using ih

theorem noNl_finalBuf (b : Str) (cs : List Str) (h : '\n' ∉ b) :
    '\n' ∉ finalBuf b cs := by
  induction cs generalizing b with
  | nil => exact h
  | cons c cs ih => exact ih _ (noNl_lastSeg_splitNl (b ++ c))

theorem run1_append (b : Str) (xs ys : List Str) :
    run1 b (xs ++ ys) = run1 b xs ++ run1 (finalBuf b xs) ys := by
  induction xs generalizing b with
  | nil => simp [run1, finalBuf]
  | cons c cs ih => simp [run1, finalBuf, ih]

theorem run2_append (b : Str) (xs ys : List Str) :
    run2 b (xs ++ ys) = run2 b xs ++ run2 (finalBuf b xs) ys := by
  induction xs generalizing b with
  | nil => simp [run2, finalBuf]
  | cons c cs ih => simp [run2, finalBuf, ih]

/-- Canonical form of the variant 1 loop: a run over any chunk list
processes exactly the newline-terminated lines of the concatenated text,
in order; the trailing unterminated segment never contributes. -/
theorem run1_canonical (cs : List Str) (b : Str) (hb : '\n' ∉ b) :
    run1 b cs = ((splitNl (b ++ cs.flatten)).dropLast).flatMap lineFrags1 := by
  induction cs generalizing b with
  | nil =>
    simp [run1, splitNl_of_noNl b hb]
  | cons c cs ih =>
    have hlast : '\n' ∉ lastSeg (splitNl (b ++ c)) := noNl_lastSeg_splitNl _
    have step : splitNl ((b ++ c) ++ cs.flatten) =
        (splitNl (b ++ c)).dropLast ++
          consHead (lastSeg (splitNl (b ++ c))) (splitNl cs.flatten) :=
      splitNl_append _ _
    have tail : splitNl (lastSeg (splitNl (b ++ c)) ++ cs.flatten) =
        consHead (lastSeg (splitNl (b ++ c))) (splitNl cs.flatten) := by
      rw [splitNl_append, splitNl_of_noNl _ hlast]
      simp [lastSeg, List.getLastD_cons]
    rw [run1, ih _ hlast]
    have hfl : (c :: cs).flatten = c ++ cs.flatten := rfl
    rw [hfl, ← List.append_assoc, step, tail]
    rw [List.dropLast_append_of_ne_nil _ (consHead_ne_nil _ _)]
    rw [List.flatMap_append]

/-! Claim theorems. -/

/-- C1 counterexample: the same complete text, partitioned one way into a
single chunk and another way into two chunks at a line boundary, makes
variant 2 of the decoder emit different fragment sequences, because its
event filter state is reset at every chunk boundary.  The claim that the
fragment sequence is identical regardless of the partition is therefore
false for the code. -/
theorem c1_counterexample :
    ("data: event: x\ndata: hello\n".data : Str) =
      "data: event: x\n".data ++ "data: hello\n".data ∧
    run2 [] ["data: event: x\ndata: hello\n".data] = [] ∧
    run2 [] ["data: event: x\n".data, "data: hello\n".data] =
      [Json.str "hello".data] :=
  ⟨rfl, rfl, rfl⟩

/-- C1 amended: chunk-boundary invariance holds for variant 1 of the
decoder, which keeps no cross-line state: any two partitions of the same
decoded text into consecutive chunks produce the same fragment sequence. -/
theorem c1_amended_invariance (cs ds : List Str) (h : cs.flatten = ds.flatten) :
    run1 [] cs = run1 [] ds := by
  rw [run1_canonical cs [] (by simp), run1_canonical ds [] (by simp), h]

/-- C1 witness: the amended invariance applied to a concrete text split
mid-payload versus delivered whole. -/
theorem c1_witness :
    (["data: \x7b\"content\":\"Hel".data, "lo\"\x7d\n".data] : List Str).flatten =
      (["data: \x7b\"content\":\"Hello\"\x7d\n".data] : List Str).flatten ∧
    run1 [] ["data: \x7b\"content\":\"Hel".data, "lo\"\x7d\n".data] =
      run1 [] ["data: \x7b\"content\":\"Hello\"\x7d\n".data] :=
  ⟨rfl, c1_amended_invariance _ _ rfl⟩

/-- C4: in both variants of `streamLLM`, the error callback fires at most
once, never together with the completion callback; and a source that
rejects after zero chunks produces zero fragments, one error call and no
completion call. -/
theorem c4_callback_exclusivity :
    (∀ b, (streamRun1 b).errCalls ≤ 1 ∧
          ((streamRun1 b).errCalls = 0 ∨ (streamRun1 b).doneCalls = 0) ∧
          (streamRun2 b).errCalls ≤ 1 ∧
          ((streamRun2 b).errCalls = 0 ∨ (streamRun2 b).doneCalls = 0)) ∧
    streamRun1 (some ⟨[], true⟩) = ⟨[], 0, 1⟩ ∧
    streamRun2 (some ⟨[], true⟩) = ⟨[], 0, 1⟩ := by
  refine ⟨fun b => ?_, rfl, rfl⟩
  rcases b with _ | ⟨chunks, fa⟩
  · simp [streamRun1, streamRun2]
  · cases fa <;> simp [streamRun1, streamRun2]

/-- C9: in both variants, a final chunk that carries no newline leaves the
fragment sequence unchanged (the buffered partial line is dropped at end
of stream) and the completion callback still fires exactly once with no
error call. -/
theorem c9_trailing_line_drop (cs : List Str) (t : Str) (ht : '\n' ∉ t) :
    (streamRun1 (some ⟨cs ++ [t], false⟩)).frags =
      (streamRun1 (some ⟨cs, false⟩)).frags ∧
    (streamRun1 (some ⟨cs ++ [t], false⟩)).doneCalls = 1 ∧
    (streamRun1 (some ⟨cs ++ [t], false⟩)).errCalls = 0 ∧
    (streamRun2 (some ⟨cs ++ [t], false⟩)).frags =
      (streamRun2 (some ⟨cs, false⟩)).frags ∧
    (streamRun2 (some ⟨cs ++ [t], false⟩)).doneCalls = 1 ∧
    (streamRun2 (some ⟨cs ++ [t], false⟩)).errCalls = 0 := by
  have hfb : '\n' ∉ finalBuf [] cs := noNl_finalBuf [] cs (by simp)
  have hsplit : splitNl (finalBuf [] cs ++ t) = [finalBuf [] cs ++ t] := by
    refine splitNl_of_noNl _ ?_
    intro hmem
    rcases List.mem_append.mp hmem with h | h
    · exact hfb h
    · exact ht h
  have h1 : run1 [] (cs ++ [t]) = run1 [] cs := by
    rw [run1_append]
    simp [run1, hsplit]
  have h2 : run2 [] (cs ++ [t]) = run2 [] cs := by
    rw [run2_append]
    simp [run2, hsplit, lines2]
  exact ⟨by simp [streamRun1, h1], by simp [streamRun1], by simp [streamRun1],
         by simp [streamRun2, h2], by simp [streamRun2], by simp [streamRun2]⟩

/-- C9 witness: a stream ending in an unterminated line keeps only the
fragment of its terminated line and still completes. -/
theorem c9_witness :
    '\n' ∉ ("data: \x7b\"content\":\"tail\"\x7d".data : Str) ∧
    (streamRun1 (some ⟨["data: \x7b\"content\":\"Hi\"\x7d\n".data,
        "data: \x7b\"content\":\"tail\"\x7d".data], false⟩)).frags =
      (streamRun1 (some ⟨["data: \x7b\"content\":\"Hi\"\x7d\n".data], false⟩)).frags ∧
    (streamRun2 (some ⟨["data: \x7b\"content\":\"Hi\"\x7d\n".data,
        "data: \x7b\"content\":\"tail\"\x7d".data], false⟩)).doneCalls = 1 := by
  have ht : '\n' ∉ ("data: \x7b\"content\":\"tail\"\x7d".data : Str) := by decide
  have h := c9_trailing_line_drop ["data: \x7b\"content\":\"Hi\"\x7d\n".data]
    ("data: \x7b\"content\":\"tail\"\x7d".data) ht
  exact ⟨ht, h.1, h.2.2.2.2.1⟩

/-- C10: a missing response body makes both variants of `streamLLM` emit
zero fragments, call the error callback exactly once, and never call the
completion callback. -/
theorem c10_missing_body :
    streamRun1 none = ⟨[], 0, 1⟩ ∧ streamRun2 none = ⟨[], 0, 1⟩ :=
  ⟨rfl, rfl⟩

theorem strStarts_event_not_data (t : Str) (h : strStarts "event:".data t = true) :
    strStarts "data:".data t = false := by
  have he : ("event:".data : Str) = 'e' :: "vent:".data := rfl
  have hd : ("data:".data : Str) = 'd' :: "ata:".data := rfl
  cases t with
  | nil => rw [he] at h; simp [strStarts] at h
  | cons c rest =>
    rw [he] at h
    rw [hd]
    simp only [strStarts, Bool.and_eq_true, beq_iff_eq] at h
    rcases h with ⟨hc, _⟩
    subst hc
    have hde : ('d' == 'e') = false := by decide
    simp [strStarts, hde]

/-- C2 counterexample: a data line whose payload carries a valid `content`
field, preceded by a line `event: other.stream`, still yields its fragment
in variant 2 — the bare `event:` line is ignored entirely (it does not
start with `data:`), so the declared event name never filters anything.
The claim that such a line yields zero fragments is false for the code. -/
theorem c2_counterexample :
    run2 [] ["event: other.stream\ndata: \x7b\"content\":\"Hi\"\x7d\n".data] =
      [Json.str "Hi".data] ∧
    ([Json.str "Hi".data] : List Json) ≠ [] :=
  ⟨rfl, by simp⟩

/-- C2 amended: event filtering in variant 2 works, but only for event
names declared inside a `data:` line.  Whenever the tracked event name is
non-empty and differs from the delta event, every line yields zero
fragments; a bare `event:`-prefixed line is ignored and declares nothing;
a payload preceded by `data: event: conversation.message.delta` yields its
fragment while one preceded by `data: event: other.stream` yields none. -/
theorem c2_amended_event_filter :
    (∀ ev line, ev ≠ [] → ev ≠ deltaEvent → (lineStep2 ev line).2 = []) ∧
    (∀ ev line, strStarts "event:".data (jsTrim line) = true →
      lineStep2 ev line = (ev, [])) ∧
    run2 []
      ["data: event: conversation.message.delta\ndata: \x7b\"content\":\"Hi\"\x7d\n".data] =
      [Json.str "Hi".data] ∧
    run2 [] ["data: event: other.stream\ndata: \x7b\"content\":\"Hi\"\x7d\n".data] = [] := by
  refine ⟨?_, ?_, rfl, rfl⟩
  · intro ev line h1 h2
    have hcond : (!(ev.isEmpty) && !(ev == deltaEvent)) = true := by
      simp [List.isEmpty_iff, h1, h2]
    simp only [lineStep2]
    split_ifs <;> simp_all
  · intro ev line h
    have hd := strStarts_event_not_data _ h
    simp only [lineStep2, hd]
    simp

/-- C2 witness: the filtering half applied to a concrete non-delta event
name, and the ignored bare event line applied to a concrete line. -/
theorem c2_witness :
    (lineStep2 "other.stream".data ("data: \x7b\"content\":\"Hi\"\x7d".data)).2 = [] ∧
    lineStep2 [] ("event: other.stream".data) = ([], []) := by
  refine ⟨c2_amended_event_filter.1 "other.stream".data _ (by decide) (by decide), ?_⟩
  exact c2_amended_event_filter.2.1 [] _ (by decide)

/-- C5 counterexample: processing the line `event: alpha` stores nothing —
variant 2 leaves the current event name empty instead of storing `alpha`,
because lines are ignored unless they start with `data:`.  Variant 1 keeps
no event state at all.  The claim that every `event:`-prefixed line stores
its trimmed remainder is false for the code. -/
theorem c5_counterexample :
    lineStep2 [] ("event: alpha".data) = ([], []) ∧ ("alpha".data : Str) ≠ [] :=
  ⟨rfl, by decide⟩

/-- C5 amended: in variant 2, event declarations are carried inside data
lines.  A line recognized as `data: event: <name>` stores the trimmed
remainder and emits nothing; every other line leaves the current event
name unchanged; and the name does not persist across chunk boundaries —
the state is reset to empty at each new chunk, as the concrete two-chunk
run shows (the fragment would be filtered out if the name persisted). -/
theorem c5_amended_event_state :
    (∀ ev line n, eventNameOf line = some n → lineStep2 ev line = (n, [])) ∧
    (∀ ev line, eventNameOf line = none → (lineStep2 ev line).1 = ev) ∧
    run2 [] ["data: event: pjgq.other\n".data, "data: \x7b\"content\":\"Q\"\x7d\n".data] =
      [Json.str "Q".data] := by
  refine ⟨?_, ?_, rfl⟩
  · intro ev line n h
    simp only [eventNameOf] at h
    simp only [lineStep2]
    split_ifs at h ⊢
    simp_all
  · intro ev line h
    simp only [eventNameOf] at h
    simp only [lineStep2]
    split_ifs at h ⊢ <;> simp_all

/-- C5 witness: the storage half applied to a concrete event-carrying data
line and the persistence half applied to a concrete ordinary line. -/
theorem c5_witness :
    lineStep2 [] ("data: event: zed".data) = ("zed".data, []) ∧
    (lineStep2 "zed".data ("data: hello".data)).1 = "zed".data := by
  refine ⟨c5_amended_event_state.1 [] _ "zed".data rfl, ?_⟩
  exact c5_amended_event_state.2.1 "zed".data _ rfl

theorem extractV1_eq_none {p : Str} (h : parseJson p = none) : extractV1 p = [] := by
  unfold extractV1
  rw [h]

theorem extractV1_eq_some {p : Str} {j : Json} (h : parseJson p = some j) :
    extractV1 p =
      (if !(truthy j && isObjectType j) then []
       else if fieldIsStrVal j "type".data "follow_up".data ||
               fieldIsStrVal j "msg_type".data "follow_up".data then []
       else
         match getField j "content".data with
         | some (Json.str s) => if (jsTrim s).isEmpty then [] else [Json.str s]
         | _ => []) := by
  unfold extractV1
  rw [h]

/-- C3 counterexample: the payload of this data line parses to a JSON
object that matches no extraction rule, yet variant 2 delivers the raw
payload string to the fragment callback through its fallback path
(api.js line 208).  The claim that such payloads yield zero fragments is
false for the code. -/
theorem c3_counterexample :
    parseJson "\x7b\"x\":1\x7d".data =
      some (Json.obj [("x".data, Json.num "1".data)]) ∧
    extractParts (Json.obj [("x".data, Json.num "1".data)]) = [] ∧
    run2 [] ["data: \x7b\"x\":1\x7d\n".data] = [Json.str "\x7b\"x\":1\x7d".data] ∧
    ([Json.str "\x7b\"x\":1\x7d".data] : List Json) ≠ [] :=
  ⟨rfl, rfl, rfl, by simp⟩

/-- C3 amended: the discard guarantee holds for variant 1 only — a payload
that fails to parse yields zero fragments, and a payload that parses but
matches none of the extraction rules of the specification (after the trim
filter) also yields zero fragments; variant 2 instead falls back to the
raw payload string. -/
theorem c3_amended_discard :
    (∀ payload, parseJson payload = none → extractV1 payload = []) ∧
    (∀ payload j, parseJson payload = some j → specRuleFrags j = [] →
      extractV1 payload = []) := by
  constructor
  · intro payload h
    exact extractV1_eq_none h
  · intro payload j hp hs
    rw [extractV1_eq_some hp]
    split_ifs with h1 h2
    · rfl
    · rfl
    · cases hc : getField j "content".data with
      | none => rfl
      | some v =>
        cases v with
        | null => rfl
        | bool b => rfl
        | num t => rfl
        | arr xs => rfl
        | obj fs => rfl
        | str s =>
          have hs' : (jsTrim s).isEmpty = true := by
            simp only [specRuleFrags, hc] at hs
            rw [List.filter_eq_nil_iff] at hs
            have hmem := hs s (by simp)
            simpa using hmem
          simp [hs']

/-- C3 witness: the parse-failure half at a concrete malformed payload and
the no-rule half at a concrete rule-free object payload. -/
theorem c3_witness :
    parseJson "\x7bbroken".data = none ∧
    extractV1 "\x7bbroken".data = [] ∧
    parseJson "\x7b\"k\":true\x7d".data =
      some (Json.obj [("k".data, Json.bool true)]) ∧
    specRuleFrags (Json.obj [("k".data, Json.bool true)]) = [] ∧
    extractV1 "\x7b\"k\":true\x7d".data = [] :=
  ⟨rfl, c3_amended_discard.1 _ rfl, rfl, rfl, c3_amended_discard.2 _ _ rfl rfl⟩

/-- C7 counterexample: variant 2 has no follow-up filter at all — the
payload tagged `type: follow_up` with a `content` field delivers the
fragment `ignore me`.  The claim that it yields zero fragments is false
for the code. -/
theorem c7_counterexample :
    run2 [] ["data: \x7b\"type\":\"follow_up\",\"content\":\"ignore me\"\x7d\n".data] =
      [Json.str "ignore me".data] ∧
    ([Json.str "ignore me".data] : List Json) ≠ [] :=
  ⟨rfl, by simp⟩

/-- C7 amended: follow-up suppression holds in variant 1 only — every
parsed payload whose `type` or `msg_type` field is the string `follow_up`
yields zero fragments there, and the concrete follow-up payload yields
zero fragments end to end; variant 2 delivers its `content` field. -/
theorem c7_amended_follow_up :
    (∀ payload j, parseJson payload = some j →
      (fieldIsStrVal j "type".data "follow_up".data ||
       fieldIsStrVal j "msg_type".data "follow_up".data) = true →
      extractV1 payload = []) ∧
    run1 [] ["data: \x7b\"type\":\"follow_up\",\"content\":\"ignore me\"\x7d\n".data] = [] := by
  constructor
  · intro payload j hp hf
    rw [extractV1_eq_some hp]
    split_ifs <;> rfl
  · rfl

/-- C7 witness: the suppression half applied to a concrete follow-up
payload. -/
theorem c7_witness :
    extractV1 "\x7b\"type\":\"follow_up\",\"content\":\"x\"\x7d".data = [] :=
  c7_amended_follow_up.1 _
    (Json.obj [("type".data, Json.str "follow_up".data),
               ("content".data, Json.str "x".data)]) rfl rfl

theorem extractV1_mem (payload : Str) (f : Json) (hf : f ∈ extractV1 payload) :
    ∃ s, f = Json.str s ∧ jsTrim s ≠ [] := by
  cases hp : parseJson payload with
  | none => rw [extractV1_eq_none hp] at hf; simp at hf
  | some j =>
    rw [extractV1_eq_some hp] at hf
    split_ifs at hf
    · simp at hf
    · simp at hf
    · cases hc : getField j "content".data with
      | none => rw [hc] at hf; simp at hf
      | some v =>
        rw [hc] at hf
        cases v with
        | null => simp at hf
        | bool b => simp at hf
        | num t => simp at hf
        | arr xs => simp at hf
        | obj fs => simp at hf
        | str s =>
          by_cases he : (jsTrim s).isEmpty = true
          · simp [he] at hf
          · simp [he] at hf
            exact ⟨s, hf, by simpa [List.isEmpty_iff] using he⟩

theorem lineFrags1_mem (line : Str) (f : Json) (hf : f ∈ lineFrags1 line) :
    ∃ s, f = Json.str s ∧ jsTrim s ≠ [] := by
  simp only [lineFrags1] at hf
  split_ifs at hf
  · simp at hf
  · simp at hf
  · simp at hf
  · simp at hf
  · exact extractV1_mem _ _ hf

/-- C8 counterexample: variant 2 applies no trim check — a payload whose
`content` field is a single space delivers that whitespace-only fragment.
The claim that every delivered fragment is non-empty after trimming is
false for the code. -/
theorem c8_counterexample :
    run2 [] ["data: \x7b\"content\":\" \"\x7d\n".data] = [Json.str [' ']] ∧
    jsTrim [' '] = [] :=
  ⟨rfl, rfl⟩

/-- C8 amended: the non-empty-fragment invariant holds for variant 1 —
every fragment it ever delivers, over any chunk list, is a string that is
non-empty after trimming (its single extraction rule applies the trim
check).  Variant 2 checks nothing and can deliver whitespace-only
fragments. -/
theorem c8_amended_nonempty (cs : List Str) (f : Json) (hf : f ∈ run1 [] cs) :
    ∃ s, f = Json.str s ∧ jsTrim s ≠ [] := by
  suffices h : ∀ cs2 (b : Str), f ∈ run1 b cs2 → ∃ s, f = Json.str s ∧ jsTrim s ≠ [] from
    h cs [] hf
  intro cs2
  induction cs2 with
  | nil => intro b hmem; simp [run1] at hmem
  | cons c cs2 ih =>
    intro b hmem
    simp only [run1] at hmem
    rcases List.mem_append.mp hmem with h | h
    · rcases List.mem_flatMap.mp h with ⟨line, _, hline⟩
      exact lineFrags1_mem _ _ hline
    · exact ih _ h

/-- C8 witness: the invariant applied to the fragment of a concrete run. -/
theorem c8_witness :
    ∃ s, (Json.str "Hi".data) = Json.str s ∧ jsTrim s ≠ [] := by
  have heq : run1 [] ["data: \x7b\"content\":\"Hi\"\x7d\n".data] =
      [Json.str "Hi".data] := rfl
  have hmem : Json.str "Hi".data ∈ run1 [] ["data: \x7b\"content\":\"Hi\"\x7d\n".data] := by
    rw [heq]; exact List.mem_singleton_self _
  exact c8_amended_nonempty _ _ hmem

theorem getField_some_obj {d : Json} {k : Str} {v : Json} (h : getField d k = some v) :
    ∃ fs, d = Json.obj fs := by
  cases d with
  | obj fs => exact ⟨fs, rfl⟩
  | null => simp [getField] at h
  | bool b => simp [getField] at h
  | num t => simp [getField] at h
  | str s => simp [getField] at h
  | arr xs => simp [getField] at h

theorem pickContent_eq (el : Json) :
    pickContent el =
      match getField el "content".data with
      | some (Json.str s) => some (Json.str s)
      | _ => none := by
  cases el with
  | obj fs => simp [pickContent, truthy]
  | null => simp [pickContent, truthy, getField]
  | bool b => cases b <;> simp [pickContent, truthy, getField]
  | num t => simp [pickContent, getField, ite_self]
  | str s => simp [pickContent, getField, ite_self]
  | arr xs => simp [pickContent, truthy, getField]

/-- C6 counterexample: variant 1 has no `data.contents` extraction rule —
the multi-fragment payload of the claim yields zero fragments there
instead of the fragments `A` then `B`.  The claim, stated about the
decoder as such, is false for that variant. -/
theorem c6_counterexample :
    run1 []
      ["data: \x7b\"data\":\x7b\"contents\":[\x7b\"content\":\"A\"\x7d,\x7b\"content\":\"B\"\x7d]\x7d\x7d\n".data] =
      [] ∧
    ([] : List Json) ≠ [Json.str "A".data, Json.str "B".data] :=
  ⟨rfl, by simp⟩

/-- C6 amended: multi-fragment extraction holds in variant 2 — the
concrete payload of the claim yields exactly the fragments `A` then `B` in
order, and in general, whenever `data.contents` is an array, the third
extraction rule contributes exactly one fragment for every element whose
`content` field is a string, preserving the sequence order. -/
theorem c6_amended_multi_fragment :
    extract2
      "\x7b\"data\":\x7b\"contents\":[\x7b\"content\":\"A\"\x7d,\x7b\"content\":\"B\"\x7d]\x7d\x7d".data =
      [Json.str "A".data, Json.str "B".data] ∧
    (∀ j d xs, getField j "data".data = some d →
      getField d "contents".data = some (Json.arr xs) →
      extractParts j = partsTop j ++ partsData j ++
        xs.filterMap (fun el =>
          match getField el "content".data with
          | some (Json.str s) => some (Json.str s)
          | _ => none)) := by
  constructor
  · rfl
  · intro j d xs hd hc
    obtain ⟨fs, hdo⟩ := getField_some_obj hc
    subst hdo
    have hfun : pickContent = (fun el =>
        match getField el "content".data with
        | some (Json.str s) => some (Json.str s)
        | _ => none) := funext pickContent_eq
    simp only [extractParts, partsList, hd, hc, truthy, hfun]
    simp

/-- C6 witness: the general rule applied to a concrete object whose
`data.contents` holds one string-content element. -/
theorem c6_witness :
    extractParts
      (Json.obj [("data".data,
        Json.obj [("contents".data,
          Json.arr [Json.obj [("content".data, Json.str "C".data)]])])]) =
      partsTop
        (Json.obj [("data".data,
          Json.obj [("contents".data,
            Json.arr [Json.obj [("content".data, Json.str "C".data)]])])]) ++
      partsData
        (Json.obj [("data".data,
          Json.obj [("contents".data,
            Json.arr [Json.obj [("content".data, Json.str "C".data)]])])]) ++
      ([Json.obj [("content".data, Json.str "C".data)]].filterMap (fun el =>
        match getField el "content".data with
        | some (Json.str s) => some (Json.str s)
        | _ => none)) :=
  c6_amended_multi_fragment.2 _ _ _ rfl rfl
